import Mathlib

/-!
Verification of the Raksa intake kiosk's realtime voice session engine.

The definitions below are a shallow embedding of the TypeScript sources:
`src/lib/form.ts` (form schema helpers), the form-mutation callbacks of
`src/App.tsx` (`updateField`, `confirmField`, `moveToStep`, `onTranscript`),
`GeminiLiveModel` from `src/types.ts` (playback scheduling, transcript
sanitization, message handling, tool dispatch), and `GrokLiveModel` from
`src/models/grok.ts`.  TypeScript's string-literal union types are erased at
runtime and tool arguments are cast unchecked, so step identifiers and field
identifiers are modelled as `String`.  Wall-clock times of the audio clock are
modelled as rationals; a decoded audio chunk is abstracted by its decoded
sample count, from which the buffer duration is computed exactly as in the
source (`length / sampleRate`).
-/

namespace Raksa

/-- Status of a form field (`FieldStatus` in src/types.ts). -/
inductive FieldStatus where
  | unanswered
  | inferred_from_speech
  | inferred_from_image
  | confirmed
deriving DecidableEq, Repr

/-- A single form field (`FormField` in src/types.ts). -/
structure FormField where
  id : String
  label : String
  value : String
  status : FieldStatus
deriving DecidableEq, Repr

/-- A named ordered group of fields, one interview section
(`FormGroup` in src/types.ts). -/
structure FormGroup where
  id : String
  label : String
  fields : List FormField
deriving DecidableEq, Repr

/-- The intake form state (`IntakeFormState` in src/types.ts).  At runtime
`step` is a plain string: the `IntakeStep` union type is erased and the
dispatcher casts tool arguments into it unchecked.  The UI-only `lang` field
is omitted: no modelled operation reads or writes it. -/
structure IntakeFormState where
  step : String
  activeFieldId : Option String
  groups : List FormGroup
  receiptCode : Option String
  userPhoto : Option String
deriving DecidableEq, Repr

/-- The two field groups of `createDefaultForm` (src/lib/form.ts). -/
def defaultGroups : List FormGroup :=
  [ { id := "personal", label := "Personal Details", fields :=
      [ { id := "full_name", label := "Full Name", value := "", status := .unanswered },
        { id := "date_of_birth", label := "Date of Birth", value := "", status := .unanswered },
        { id := "age", label := "Age", value := "", status := .unanswered },
        { id := "gender", label := "Gender", value := "", status := .unanswered },
        { id := "nationality", label := "Nationality", value := "", status := .unanswered },
        { id := "phone", label := "Phone Number", value := "", status := .unanswered },
        { id := "address", label := "Address", value := "", status := .unanswered } ] },
    { id := "incident", label := "Incident Details", fields :=
      [ { id := "incident_type", label := "Type of Incident", value := "", status := .unanswered },
        { id := "incident_description", label := "What Happened", value := "", status := .unanswered },
        { id := "incident_date", label := "When It Happened", value := "", status := .unanswered },
        { id := "incident_location", label := "Location", value := "", status := .unanswered },
        { id := "incident_victims", label := "Who Was Affected", value := "", status := .unanswered },
        { id := "incident_suspects", label := "Suspect Description", value := "", status := .unanswered },
        { id := "incident_evidence", label := "Evidence / Notes", value := "", status := .unanswered } ] } ]

/-- `createDefaultForm` (src/lib/form.ts, current version): the form starts on
the ungated photo step with no active field, no receipt and no photo. -/
def createDefaultForm : IntakeFormState :=
  { step := "photo", activeFieldId := none, groups := defaultGroups,
    receiptCode := none, userPhoto := none }

/-- `findNextField` (src/lib/form.ts): the first field whose status is not
`confirmed`, scanning every group from the first group in defined order;
returns the group id and field id, or `none` if all fields are confirmed. -/
def findNextField (form : IntakeFormState) : Option (String × String) :=
  form.groups.findSome? fun g =>
    (g.fields.find? fun f => !(f.status == FieldStatus.confirmed)).map fun f => (g.id, f.id)

/-- `allFieldsConfirmed` (src/lib/form.ts). -/
def allFieldsConfirmed (form : IntakeFormState) : Bool :=
  form.groups.all fun g => g.fields.all fun f => f.status == FieldStatus.confirmed

/-- Modelled from the spec: `groupFullyConfirmed` is imported by src/App.tsx
from src/lib/form.ts, but the current version of that module is missing from
the source snapshot.  Per the gating description ("every field of the
*current* group has status `confirmed`"; the photo and receipt steps "are
ungated"), the group named `groupId` counts as fully confirmed when each of
its fields is confirmed, and a step with no matching group is ungated, i.e.
vacuously fully confirmed. -/
def groupFullyConfirmed (form : IntakeFormState) (groupId : String) : Bool :=
  match form.groups.find? fun g => g.id == groupId with
  | some g => g.fields.all fun f => f.status == FieldStatus.confirmed
  | none => true

/-- Modelled from the spec: `unconfirmedFieldsInGroup` is imported by
src/App.tsx from src/lib/form.ts but missing from the snapshot.  Per the spec
it returns the descriptors (labels) of the still-unconfirmed fields of the
group, in defined order; a step with no matching group has none. -/
def unconfirmedFieldsInGroup (form : IntakeFormState) (groupId : String) : List String :=
  match form.groups.find? fun g => g.id == groupId with
  | some g => (g.fields.filter fun f => !(f.status == FieldStatus.confirmed)).map fun f => f.label
  | none => []

/-- Provenance of an inferred field value (`source` argument of
`update_field`). -/
inductive UpdateSource where
  | speech
  | image
deriving DecidableEq, Repr

/-- The status ternary of `updateField`:
`source === 'speech' ? 'inferred_from_speech' : 'inferred_from_image'`. -/
def sourceStatus : UpdateSource → FieldStatus
  | .speech => FieldStatus.inferred_from_speech
  | .image => FieldStatus.inferred_from_image

/-- `updateField` (src/App.tsx): set the matching field's value and mark it
inferred from the given source — even if it was previously confirmed. -/
def updateField (form : IntakeFormState) (fieldId value : String)
    (source : UpdateSource) : IntakeFormState :=
  { form with groups := form.groups.map fun g =>
      { g with fields := g.fields.map fun f =>
          if f.id = fieldId then { f with value := value, status := sourceStatus source }
          else f } }

/-- The `updatedForm` intermediate of `confirmField` (src/App.tsx): the form
with the matching field's status set to `confirmed`, before the active-field
and step recomputation. -/
def confirmFieldUpdate (form : IntakeFormState) (fieldId : String) : IntakeFormState :=
  { form with groups := form.groups.map fun g =>
      { g with fields := g.fields.map fun f =>
          if f.id = fieldId then { f with status := FieldStatus.confirmed } else f } }

/-- `confirmField` (src/App.tsx): mark the matching field confirmed, point
`activeFieldId` at the next field reported by `findNextField`, and advance
`step` to that field's group when the current group is fully confirmed and
the next field lives in a different group. -/
def confirmField (form : IntakeFormState) (fieldId : String) : IntakeFormState :=
  let updatedForm := confirmFieldUpdate form fieldId
  let next := findNextField updatedForm
  let nextStep :=
    match next with
    | some (gid, _) =>
      if gid ≠ form.step ∧ groupFullyConfirmed updatedForm form.step = true then gid
      else form.step
    | none => form.step
  { updatedForm with
    step := nextStep,
    activeFieldId := match next with
      | some (_, fid) => some fid
      | none => form.activeFieldId }

/-- `moveToStep` (src/App.tsx).  The nondeterministic `generateReceiptCode()`
(wall clock and randomness) is modelled by the `newCode` parameter: the code
the generator would produce for this call.  Returns the updated form and the
`blocked` list: `none` on success, `some missing` when the transition was
refused. -/
def moveToStep (form : IntakeFormState) (step : String) (newCode : String) :
    IntakeFormState × Option (List String) :=
  let currentGroupId := form.step
  if currentGroupId ≠ step ∧ currentGroupId ≠ "photo" ∧ currentGroupId ≠ "receipt" ∧
      groupFullyConfirmed form currentGroupId = false then
    let missing := unconfirmedFieldsInGroup form currentGroupId
    let nextInGroup := (form.groups.find? fun g => g.id == currentGroupId).bind fun g =>
      g.fields.find? fun f => !(f.status == FieldStatus.confirmed)
    ({ form with activeFieldId := match nextInGroup with
        | some f => some f.id
        | none => form.activeFieldId }, some missing)
  else if step = "receipt" then
    if form.groups.all (fun g => g.fields.all fun f => f.status == FieldStatus.confirmed) then
      ({ form with step := "receipt", activeFieldId := none, receiptCode := some newCode }, none)
    else
      let nextField := findNextField form
      let missingGroup := form.groups.find? fun g =>
        !(g.fields.all fun f => f.status == FieldStatus.confirmed)
      let blocked := match missingGroup with
        | some g => unconfirmedFieldsInGroup form g.id
        | none => ([] : List String)
      ({ form with
          step := (match missingGroup with
            | some g => g.id
            | none => form.step),
          activeFieldId := (match nextField with
            | some (_, fid) => some fid
            | none => form.activeFieldId) }, some blocked)
  else
    let group := form.groups.find? fun g => g.id == step
    ({ form with
        step := step,
        activeFieldId := (match group with
          | some g => (match g.fields.head? with
            | some f => some f.id
            | none => none)
          | none => none) }, none)

/-- A form state reachable from the default form by the three operations the
tool-call dispatcher can invoke. -/
inductive Reachable : IntakeFormState → Prop where
  | init : Reachable createDefaultForm
  | update {f : IntakeFormState} (fid v : String) (src : UpdateSource) :
      Reachable f → Reachable (updateField f fid v src)
  | confirm {f : IntakeFormState} (fid : String) :
      Reachable f → Reachable (confirmField f fid)
  | move {f : IntakeFormState} (step code : String) :
      Reachable f → Reachable (moveToStep f step code).1

/-- ASCII letter, as matched by the `[A-Za-z]` regex class. -/
def isAsciiLetter (c : Char) : Bool :=
  ('A' ≤ c && c ≤ 'Z') || ('a' ≤ c && c ≤ 'z')

/-- ASCII digit, as matched by the `\d` regex class. -/
def isAsciiDigit (c : Char) : Bool :=
  '0' ≤ c && c ≤ '9'

/-- Match one control token at the head of `cs`, where `cs` is the text just
after an opening `<`: one or more ASCII letters, then zero or more ASCII
digits, then `>`.  Returns the remainder after the closing `>`.  This is the
union of the alternatives of the `sanitizeTranscript` regex
(`<ctrl\d+>|<shift>|<alt\d+>|<[A-Za-z]+\d*>`): the last alternative subsumes
the first three, and greedy matching without backtracking agrees with the
regex here because letters, digits and `>` are disjoint character classes. -/
def matchTokenEnd (cs : List Char) : Option (List Char) :=
  if (cs.takeWhile isAsciiLetter).isEmpty then none
  else
    match (cs.dropWhile isAsciiLetter).dropWhile isAsciiDigit with
    | '>' :: rest => some rest
    | _ => none

/-- One left-to-right pass of the global regex replacement in
`sanitizeTranscript`: drop every control token, keep every other character.
`fuel` is a structural-recursion bound; it never runs out when it exceeds the
input length (`stripAux_congr`). -/
def stripAux : Nat → List Char → List Char
  | 0, _ => []
  | _ + 1, [] => []
  | fuel + 1, c :: cs =>
    if c = '<' then
      match matchTokenEnd cs with
      | some rest => stripAux fuel rest
      | none => c :: stripAux fuel cs
    else c :: stripAux fuel cs

/-- Strip all control tokens from a character list (the regex replacement of
`sanitizeTranscript` in src/types.ts). -/
def stripControlTokens (cs : List Char) : List Char :=
  stripAux (cs.length + 1) cs

/-- Whitespace as removed by JavaScript's `String.prototype.trim` (restricted
to the ASCII whitespace relevant to transcripts). -/
def isJsWhitespace (c : Char) : Bool :=
  c = ' ' || c = '\t' || c = '\n' || c = '\r'

/-- JavaScript `String.prototype.trim`: remove leading and trailing
whitespace. -/
def jsTrim (s : String) : String :=
  String.mk (((s.data.dropWhile isJsWhitespace).reverse.dropWhile isJsWhitespace).reverse)

/-- `GeminiLiveModel.sanitizeTranscript` (src/types.ts): strip provider
control tokens such as `<ctrl46>` and then **trim** the result. -/
def sanitizeTranscript (s : String) : String :=
  jsTrim (String.mk (stripControlTokens s.data))

/-- Speaker role of a transcript delta or assembled turn. -/
inductive Role where
  | user
  | model
deriving DecidableEq, Repr

/-- An assembled chat turn (`ChatMessage` in src/types.ts, with the
nondeterministic `id` and `timestamp` bookkeeping fields omitted — neither is
read by any modelled operation). -/
structure ChatTurn where
  role : Role
  text : String
deriving DecidableEq, Repr

/-- The `model.onTranscript` handler of src/App.tsx: merge one `(text, role,
isFinal)` delta into the assembled message list.  Final markers are dropped;
a delta for a new role starts a turn only when the text is non-empty after
trimming; a delta for the same role is appended verbatim. -/
def onTranscriptStep (messages : List ChatTurn) (text : String) (role : Role)
    (isFinal : Bool) : List ChatTurn :=
  if isFinal then messages
  else
    match messages.getLast? with
    | some lastMsg =>
      if lastMsg.role = role then
        messages.dropLast ++ [{ lastMsg with text := lastMsg.text ++ text }]
      else if jsTrim text ≠ "" then messages ++ [{ role := role, text := text }]
      else messages
    | none =>
      if jsTrim text ≠ "" then messages ++ [{ role := role, text := text }]
      else messages

/-- Feed a sequence of deltas to the transcript assembler, starting from the
empty history. -/
def assembleTranscript (deltas : List (String × Role × Bool)) : List ChatTurn :=
  deltas.foldl (fun msgs d => onTranscriptStep msgs d.1 d.2.1 d.2.2) []

/-- An audio buffer scheduled on the output context.  `bufId` numbers buffers
in scheduling order (the `AudioBufferSourceNode` identity); `start` and
`duration` are in seconds of the playback clock. -/
structure SchedBuffer where
  bufId : Nat
  start : ℚ
  duration : ℚ
deriving DecidableEq, Repr

/-- State of the audio playback scheduler: the `nextStartTime` cursor, the
pending scheduled buffers (`scheduledSources` for Gemini; for Grok, the
buffers scheduled in the output `AudioContext`, which the class does not
track), and the next fresh buffer id. -/
structure PlaybackState where
  nextStartTime : ℚ
  scheduled : List SchedBuffer
  nextBufId : Nat
deriving DecidableEq, Repr

/-- Output sample rate of both providers (`OUTPUT_SAMPLE_RATE` = 24000 Hz). -/
def OUTPUT_SAMPLE_RATE : ℚ := 24000

/-- Duration in seconds of a decoded chunk of `numSamples` 16-bit samples:
`AudioBuffer.duration = length / sampleRate`. -/
def chunkDuration (numSamples : Nat) : ℚ :=
  (numSamples : ℚ) / OUTPUT_SAMPLE_RATE

/-- `GeminiLiveModel.playAudioChunk` (src/types.ts), at playback-clock time
`now`, for a chunk decoding to `numSamples` samples: start the buffer at
`max(currentTime, nextStartTime)`, advance the cursor by the buffer duration,
and track the source so it can be cancelled on interruption. -/
def geminiPlayAudioChunk (now : ℚ) (numSamples : Nat) (s : PlaybackState) : PlaybackState :=
  let startTime := max now s.nextStartTime
  { nextStartTime := startTime + chunkDuration numSamples,
    scheduled := s.scheduled ++ [⟨s.nextBufId, startTime, chunkDuration numSamples⟩],
    nextBufId := s.nextBufId + 1 }

/-- `GeminiLiveModel.flushAudioQueue` (src/types.ts): stop and release every
pending buffer and reset the cursor to the current clock time. -/
def flushAudioQueue (now : ℚ) (s : PlaybackState) : PlaybackState :=
  { s with scheduled := [], nextStartTime := now }

/-- `GrokLiveModel.playAudioChunk` (src/models/grok.ts): the same scheduling
computation as the Gemini engine (the class merely does not keep the
`scheduledSources` list, so nothing can cancel the buffers it schedules). -/
def grokPlayAudioChunk (now : ℚ) (numSamples : Nat) (s : PlaybackState) : PlaybackState :=
  let startTime := max now s.nextStartTime
  { nextStartTime := startTime + chunkDuration numSamples,
    scheduled := s.scheduled ++ [⟨s.nextBufId, startTime, chunkDuration numSamples⟩],
    nextBufId := s.nextBufId + 1 }

/-- One function call of an inbound `LiveServerMessage.toolCall`; `name`,
`args` and `id` are each optional on the wire (`call.name ?? ''` etc.).
Arguments are kept as raw key/value pairs. -/
structure FunctionCall where
  name : Option String
  args : Option (List (String × String))
  id : Option String
deriving DecidableEq, Repr

/-- The tool response sent back for one function call
(`sendToolResponse({functionResponses: {id, name, response}})`). -/
structure ToolResultMsg where
  id : Option String
  name : Option String
  result : String
deriving DecidableEq, Repr

/-- The parts of a `LiveServerMessage` that `GeminiLiveModel.handleMessage`
reads: the interruption flag, input/output transcription deltas, one inline
audio chunk (abstracted by its decoded sample count), the turn-complete flag
and the function calls.  `none` models an absent (or empty, for the
truthiness tests on strings) part. -/
structure LiveServerMsg where
  interrupted : Bool
  inputTranscription : Option String
  audioData : Option Nat
  outputTranscription : Option String
  turnComplete : Bool
  functionCalls : List FunctionCall
deriving DecidableEq, Repr

/-- A delta delivered to the registered `onTranscript` callback. -/
structure TranscriptEvent where
  text : String
  role : Role
  isFinal : Bool
deriving DecidableEq, Repr

/-- Observable effects of handling one server message: the resulting playback
state, the transcript deltas delivered to `onTranscript` (in order), the
`(name, args, id)` triples delivered to `onToolCall` (in order), and the tool
results sent back. -/
structure GeminiEffects where
  play : PlaybackState
  transcripts : List TranscriptEvent
  handlerCalls : List (String × List (String × String) × String)
  toolResults : List ToolResultMsg
deriving DecidableEq, Repr

/-- `GeminiLiveModel.handleMessage` (src/types.ts) at playback-clock time
`now`: sequentially (1) flush on the `interrupted` flag, (2) on a user speech
transcript, flush the audio queue and emit the sanitized delta if non-empty,
(3) schedule the inline audio chunk, (4) emit the sanitized model transcript
delta if non-empty, (5) emit the final marker on `turnComplete`, (6) for each
function call invoke the handler and send one `'ok'` tool result. -/
def geminiHandleMessage (now : ℚ) (msg : LiveServerMsg) (s : PlaybackState) : GeminiEffects :=
  let s1 := if msg.interrupted then flushAudioQueue now s else s
  let s2 := match msg.inputTranscription with
    | some t => if t ≠ "" then flushAudioQueue now s1 else s1
    | none => s1
  let userEvents : List TranscriptEvent := match msg.inputTranscription with
    | some t =>
      if t ≠ "" then
        if sanitizeTranscript t ≠ "" then [⟨sanitizeTranscript t, Role.user, false⟩] else []
      else []
    | none => []
  let s3 := match msg.audioData with
    | some n => geminiPlayAudioChunk now n s2
    | none => s2
  let modelEvents : List TranscriptEvent := match msg.outputTranscription with
    | some t =>
      if t ≠ "" then
        if sanitizeTranscript t ≠ "" then [⟨sanitizeTranscript t, Role.model, false⟩] else []
      else []
    | none => []
  let finalEvents : List TranscriptEvent :=
    if msg.turnComplete then [⟨"", Role.model, true⟩] else []
  { play := s3,
    transcripts := userEvents ++ modelEvents ++ finalEvents,
    handlerCalls := msg.functionCalls.map fun c => (c.name.getD "", c.args.getD [], c.id.getD ""),
    toolResults := msg.functionCalls.map fun c => { id := c.id, name := c.name, result := "ok" } }

/-- One inbound Grok realtime event, by its `type` tag, restricted to the
parts `GrokLiveModel.handleMessage` reads. -/
inductive GrokEvent where
  | conversationCreated
  | sessionUpdated
  | audioDelta (numSamples : Nat)
  | modelTranscriptDelta (text : String)
  | transcriptDone
  | userItemTranscript (text : String)
  | userTranscriptionCompleted (text : String)
  | other
deriving DecidableEq, Repr

/-- Observable playback/transcript effects of one Grok event. -/
structure GrokEffects where
  play : PlaybackState
  transcripts : List TranscriptEvent
deriving DecidableEq, Repr

/-- `GrokLiveModel.handleMessage` (src/models/grok.ts), restricted to its
playback and transcript effects (session-configuration bookkeeping omitted):
audio deltas are scheduled; model transcript deltas and user transcripts are
emitted.  No event stops or flushes pending playback. -/
def grokHandleMessage (now : ℚ) (ev : GrokEvent) (s : PlaybackState) : GrokEffects :=
  match ev with
  | .audioDelta n => { play := grokPlayAudioChunk now n s, transcripts := [] }
  | .modelTranscriptDelta t => { play := s, transcripts := [⟨t, Role.model, false⟩] }
  | .transcriptDone => { play := s, transcripts := [⟨"", Role.model, true⟩] }
  | .userItemTranscript t => { play := s, transcripts := [⟨t, Role.user, true⟩] }
  | .userTranscriptionCompleted t => { play := s, transcripts := [⟨t, Role.user, true⟩] }
  | _ => { play := s, transcripts := [] }

/-- The personal-section field ids, in defined order. -/
def personalFieldIds : List String :=
  ["full_name", "date_of_birth", "age", "gender", "nationality", "phone", "address"]

/-- The incident-section field ids, in defined order. -/
def incidentFieldIds : List String :=
  ["incident_type", "incident_description", "incident_date", "incident_location",
   "incident_victims", "incident_suspects", "incident_evidence"]

/-- A sequence of `confirm_field` tool calls, one per listed field id. -/
def confirmAll (form : IntakeFormState) (fids : List String) : IntakeFormState :=
  fids.foldl confirmField form

/-- The form after moving to the personal step and confirming every personal
field: the interview has auto-advanced to the incident section. -/
def incidentStageForm : IntakeFormState :=
  confirmAll (moveToStep createDefaultForm "personal" "X").1 personalFieldIds

/-- `incidentStageForm` with `full_name` re-opened by a late speech update
while the interview sits on the incident step. -/
def reopenedForm : IntakeFormState :=
  updateField incidentStageForm "full_name" "John" UpdateSource.speech

/-- The form with every field of both sections confirmed. -/
def fullyConfirmedForm : IntakeFormState :=
  confirmAll (moveToStep createDefaultForm "personal" "X").1
    (personalFieldIds ++ incidentFieldIds)

/-- The form after the successful terminal transition. -/
def receiptForm : IntakeFormState := (moveToStep fullyConfirmedForm "receipt" "RTP-1").1

/-- The form after a further `next_step(personal)` from the receipt step. -/
def escapedForm : IntakeFormState := (moveToStep receiptForm "personal" "B").1

/-- A playback state with one pending buffer and a cursor ahead of the
clock, used as a concrete scenario for the barge-in claims. -/
def bargeState : PlaybackState :=
  { nextStartTime := 5, scheduled := [⟨0, 2, 3⟩], nextBufId := 1 }

/-- A Gemini server message carrying a user speech transcript and an inline
audio chunk. -/
def bargeMsg : LiveServerMsg :=
  { interrupted := false, inputTranscription := some "hello", audioData := some 240,
    outputTranscription := none, turnComplete := false, functionCalls := [] }

/-- `confirmField` only recomputes `step` and `activeFieldId` on top of the
group update, so its groups, receipt code, photo and `findNextField` result
agree definitionally with those of `confirmFieldUpdate`. -/
theorem confirmField_groups (form : IntakeFormState) (fieldId : String) :
    (confirmField form fieldId).groups = (confirmFieldUpdate form fieldId).groups := rfl

theorem confirmField_findNextField (form : IntakeFormState) (fieldId : String) :
    findNextField (confirmField form fieldId) = findNextField (confirmFieldUpdate form fieldId) :=
  rfl

theorem confirmField_groupFullyConfirmed (form : IntakeFormState) (fieldId gid : String) :
    groupFullyConfirmed (confirmField form fieldId) gid =
      groupFullyConfirmed (confirmFieldUpdate form fieldId) gid := rfl

/-- A successful token match consumes at least the closing `>`. -/
theorem matchTokenEnd_length {cs rest : List Char}
    (h : matchTokenEnd cs = some rest) : rest.length < cs.length := by
  unfold matchTokenEnd at h
  split at h
  · exact Option.noConfusion h
  · split at h
    next heq =>
      have h1 : ((cs.dropWhile isAsciiLetter).dropWhile isAsciiDigit).length ≤ cs.length :=
        le_trans (List.dropWhile_suffix isAsciiDigit).length_le
          (List.dropWhile_suffix isAsciiLetter).length_le
      rw [heq] at h1
      cases h
      simpa using Nat.lt_of_succ_le h1
    next => exact Option.noConfusion h

/-- The fuel bound of `stripAux` is irrelevant once it exceeds the input
length, so `stripControlTokens` is well defined. -/
theorem stripAux_congr : ∀ (n m : Nat) (cs : List Char),
    cs.length < n → cs.length < m → stripAux n cs = stripAux m cs := by
  intro n
  induction n with
  | zero => intro m cs h _; exact absurd h (Nat.not_lt_zero _)
  | succ n ih =>
    intro m cs hn hm
    match m, cs with
    | 0, _ => exact absurd hm (Nat.not_lt_zero _)
    | m + 1, [] => rfl
    | m + 1, c :: cs =>
      simp only [stripAux]
      have hcs_n : cs.length < n := Nat.lt_of_succ_lt_succ hn
      have hcs_m : cs.length < m := Nat.lt_of_succ_lt_succ hm
      by_cases hc : c = '<'
      · simp only [hc, if_pos rfl]
        cases hrest : matchTokenEnd cs with
        | some rest =>
          have hr := matchTokenEnd_length hrest
          exact ih m rest (Nat.lt_of_lt_of_le hr (Nat.le_of_lt hcs_n))
            (Nat.lt_of_lt_of_le hr (Nat.le_of_lt hcs_m))
        | none => rw [ih m cs hcs_n hcs_m]
      · simp only [if_neg hc]
        rw [ih m cs hcs_n hcs_m]

/-- C4: updating a field that is currently `confirmed` sets its value and
resets its status to the inferred status matching the source; it never stays
`confirmed`. -/
theorem update_reopens_confirmed (form : IntakeFormState) (fid v : String) (src : UpdateSource)
    (h : ∃ g ∈ form.groups, ∃ f ∈ g.fields, f.id = fid ∧ f.status = FieldStatus.confirmed) :
    (∃ g ∈ (updateField form fid v src).groups, ∃ f ∈ g.fields, f.id = fid) ∧
    ∀ g ∈ (updateField form fid v src).groups, ∀ f ∈ g.fields, f.id = fid →
      f.value = v ∧ f.status = sourceStatus src ∧ f.status ≠ FieldStatus.confirmed := by
  constructor
  · obtain ⟨g, hg, f, hf, hid, _⟩ := h
    exact ⟨_, List.mem_map_of_mem _ hg, _, List.mem_map_of_mem _ hf, by simp [hid]⟩
  · intro g' hg' f' hf' hid'
    simp only [updateField, List.mem_map] at hg'
    obtain ⟨g, _, rfl⟩ := hg'
    simp only [List.mem_map] at hf'
    obtain ⟨f0, _, rfl⟩ := hf'
    by_cases h0 : f0.id = fid
    · cases src <;> simp [h0, sourceStatus]
    · simp only [if_neg h0] at hid'
      exact absurd hid' h0

/-- Closed witness for `update_reopens_confirmed`: after confirming
`full_name`, a speech update resets it to `inferred_from_speech` with the new
value. -/
theorem update_reopens_confirmed_witness :
    (∃ g ∈ (confirmField createDefaultForm "full_name").groups, ∃ f ∈ g.fields,
        f.id = "full_name" ∧ f.status = FieldStatus.confirmed) ∧
    ∀ g ∈ (updateField (confirmField createDefaultForm "full_name") "full_name" "Jane"
        UpdateSource.speech).groups, ∀ f ∈ g.fields, f.id = "full_name" →
      f.value = "Jane" ∧
      f.status = FieldStatus.inferred_from_speech ∧
      f.status ≠ FieldStatus.confirmed :=
  ⟨by decide,
   (update_reopens_confirmed (confirmField createDefaultForm "full_name")
      "full_name" "Jane" UpdateSource.speech (by decide)).2⟩

/-- C1: when the current step's group (current step neither photo nor
receipt) still has an unconfirmed field, a transition to a different target
step is refused: the step and receipt code are unchanged, the active field
becomes the first unconfirmed field of the current group, and a non-empty
blocked list of the still-unconfirmed field descriptors is returned. -/
theorem gating_blocks_unconfirmed_transition (form : IntakeFormState) (g : FormGroup)
    (target code : String)
    (hg : (form.groups.find? fun x => x.id == form.step) = some g)
    (hun : (g.fields.find? fun f => !(f.status == FieldStatus.confirmed)).isSome = true)
    (hphoto : form.step ≠ "photo") (hreceipt : form.step ≠ "receipt")
    (htarget : target ≠ form.step) :
    (moveToStep form target code).1.step = form.step ∧
    (moveToStep form target code).1.receiptCode = form.receiptCode ∧
    (moveToStep form target code).1.activeFieldId =
      (g.fields.find? fun f => !(f.status == FieldStatus.confirmed)).map (fun f => f.id) ∧
    (moveToStep form target code).2 = some (unconfirmedFieldsInGroup form form.step) ∧
    ∃ l, (moveToStep form target code).2 = some l ∧ l ≠ [] := by
  obtain ⟨f0, hf0⟩ := Option.isSome_iff_exists.mp hun
  have hpf := List.find?_some hf0
  have hmem := List.mem_of_find?_eq_some hf0
  have hgf : groupFullyConfirmed form form.step = false := by
    unfold groupFullyConfirmed
    rw [hg]
    show (g.fields.all fun f => f.status == FieldStatus.confirmed) = false
    cases hallv : g.fields.all fun f => f.status == FieldStatus.confirmed with
    | false => rfl
    | true =>
      have := List.all_eq_true.mp hallv f0 hmem
      rw [this] at hpf
      exact absurd hpf (by simp)
  have hcond : form.step ≠ target ∧ form.step ≠ "photo" ∧ form.step ≠ "receipt" ∧
      groupFullyConfirmed form form.step = false :=
    ⟨fun e => htarget e.symm, hphoto, hreceipt, hgf⟩
  refine ⟨?_, ?_, ?_, ?_, ?_⟩
  · simp only [moveToStep, if_pos hcond]
  · simp only [moveToStep, if_pos hcond]
  · simp only [moveToStep, if_pos hcond, hg, Option.some_bind, hf0, Option.map_some']
  · simp only [moveToStep, if_pos hcond]
  · refine ⟨unconfirmedFieldsInGroup form form.step, ?_, ?_⟩
    · simp only [moveToStep, if_pos hcond]
    · unfold unconfirmedFieldsInGroup
      rw [hg]
      have : f0 ∈ g.fields.filter fun f => !(f.status == FieldStatus.confirmed) :=
        List.mem_filter.mpr ⟨hmem, hpf⟩
      simp only [ne_eq, List.map_eq_nil_iff]
      exact List.ne_nil_of_mem this

/-- Closed witness for `gating_blocks_unconfirmed_transition`: on the default
form moved to the personal step, `next_step(incident)` is refused with all
seven personal labels blocked. -/
theorem gating_blocks_witness :
    (moveToStep (moveToStep createDefaultForm "personal" "W").1 "incident" "W2").1.step =
      "personal" ∧
    (moveToStep (moveToStep createDefaultForm "personal" "W").1 "incident" "W2").1.receiptCode =
      none ∧
    (moveToStep (moveToStep createDefaultForm "personal" "W").1 "incident" "W2").2 =
      some (unconfirmedFieldsInGroup (moveToStep createDefaultForm "personal" "W").1
        "personal") := by
  have h := gating_blocks_unconfirmed_transition (moveToStep createDefaultForm "personal" "W").1
    (defaultGroups.get ⟨0, by decide⟩) "incident" "W2"
    (by decide) (by decide) (by decide) (by decide) (by decide)
  exact ⟨h.1, h.2.1, h.2.2.2.1⟩

/-- C6: each delivered chunk is scheduled at `max(now, cursor)` and the
cursor advances by its duration; the Grok scheduler computes identically;
back-to-back deliveries of durations d1, d2 from a cursor seeded at t0 start
at t0 and t0+d1; scheduling preserves the no-overlap chain invariant. -/
theorem playback_scheduling_ordered :
    (∀ (now : ℚ) (n : Nat) (s : PlaybackState), ∃ b : SchedBuffer,
        (geminiPlayAudioChunk now n s).scheduled = s.scheduled ++ [b] ∧
        b.start = max now s.nextStartTime ∧
        b.duration = chunkDuration n ∧
        (geminiPlayAudioChunk now n s).nextStartTime = b.start + b.duration) ∧
    (∀ (now : ℚ) (n : Nat) (s : PlaybackState),
        grokPlayAudioChunk now n s = geminiPlayAudioChunk now n s) ∧
    (∀ (t0 t : ℚ) (n1 n2 : Nat) (s : PlaybackState),
        s.nextStartTime = t0 → s.scheduled = [] →
        t0 ≤ t → t ≤ t0 + chunkDuration n1 →
        ((geminiPlayAudioChunk t n2 (geminiPlayAudioChunk t0 n1 s)).scheduled.map
            fun b => b.start) = [t0, t0 + chunkDuration n1]) ∧
    (∀ (now : ℚ) (n : Nat) (s : PlaybackState),
        (∀ b ∈ s.scheduled, b.start + b.duration ≤ s.nextStartTime) →
        s.scheduled.Chain' (fun a b => a.start + a.duration ≤ b.start) →
        (∀ b ∈ (geminiPlayAudioChunk now n s).scheduled,
            b.start + b.duration ≤ (geminiPlayAudioChunk now n s).nextStartTime) ∧
        (geminiPlayAudioChunk now n s).scheduled.Chain'
          (fun a b => a.start + a.duration ≤ b.start)) := by
  have hdur : ∀ n : Nat, 0 ≤ chunkDuration n := by
    intro n
    unfold chunkDuration OUTPUT_SAMPLE_RATE
    positivity
  refine ⟨?_, ?_, ?_, ?_⟩
  · intro now n s
    exact ⟨⟨s.nextBufId, max now s.nextStartTime, chunkDuration n⟩, rfl, rfl, rfl, rfl⟩
  · intro now n s
    rfl
  · intro t0 t n1 n2 s h1 h2 h3 h4
    simp [geminiPlayAudioChunk, h1, h2, max_self, max_eq_right h4]
  · intro now n s hb hc
    constructor
    · intro b hbmem
      rcases List.mem_append.mp hbmem with hold | hnew
      · calc b.start + b.duration ≤ s.nextStartTime := hb b hold
          _ ≤ max now s.nextStartTime := le_max_right _ _
          _ ≤ max now s.nextStartTime + chunkDuration n := le_add_of_nonneg_right (hdur n)
      · rcases List.mem_singleton.mp hnew with rfl
        exact le_refl _
    · refine List.chain'_append.mpr ⟨hc, List.chain'_singleton _, ?_⟩
      intro x hx y hy
      simp only [List.head?_cons, Option.mem_def, Option.some.injEq] at hy
      subst hy
      have hxmem : x ∈ s.scheduled := List.mem_of_mem_getLast? hx
      calc x.start + x.duration ≤ s.nextStartTime := hb x hxmem
        _ ≤ max now s.nextStartTime := le_max_right _ _

/-- Closed witness for `playback_scheduling_ordered`: two back-to-back 1s and
0.5s chunks delivered at clock 0 start at 0 and 1; a chunk scheduled on an
empty state satisfies the no-overlap invariant. -/
theorem playback_scheduling_witness :
    ((geminiPlayAudioChunk 0 12000 (geminiPlayAudioChunk 0 24000
        { nextStartTime := 0, scheduled := [], nextBufId := 0 })).scheduled.map
      fun b => b.start) = [0, 0 + chunkDuration 24000] ∧
    (∀ b ∈ (geminiPlayAudioChunk 2 240
        { nextStartTime := 1, scheduled := [], nextBufId := 5 }).scheduled,
      b.start + b.duration ≤ (geminiPlayAudioChunk 2 240
        { nextStartTime := 1, scheduled := [], nextBufId := 5 }).nextStartTime) ∧
    (geminiPlayAudioChunk 2 240
      { nextStartTime := 1, scheduled := [], nextBufId := 5 }).scheduled.Chain'
        (fun a b => a.start + a.duration ≤ b.start) :=
  ⟨playback_scheduling_ordered.2.2.1 0 0 24000 12000
      { nextStartTime := 0, scheduled := [], nextBufId := 0 } rfl rfl le_rfl
      (by norm_num [chunkDuration, OUTPUT_SAMPLE_RATE]),
   (playback_scheduling_ordered.2.2.2 2 240
      { nextStartTime := 1, scheduled := [], nextBufId := 5 }
      (by simp) List.chain'_nil).1,
   (playback_scheduling_ordered.2.2.2 2 240
      { nextStartTime := 1, scheduled := [], nextBufId := 5 }
      (by simp) List.chain'_nil).2⟩

/-- C7: the concrete delta sequence assembles into exactly the two turns
`[{user,"Hi"}, {model,"Hi there"}]`; a final marker never changes the
history; an empty-text delta never changes the number of turns. -/
theorem transcript_merge :
    assembleTranscript
        [("Hi", Role.user, false), ("Hi", Role.model, false),
         (" there", Role.model, false), ("", Role.model, true)] =
      [{ role := Role.user, text := "Hi" }, { role := Role.model, text := "Hi there" }] ∧
    (∀ (msgs : List ChatTurn) (text : String) (role : Role),
        onTranscriptStep msgs text role true = msgs) ∧
    (∀ (msgs : List ChatTurn) (role : Role),
        (onTranscriptStep msgs "" role false).length = msgs.length) := by
  refine ⟨by decide, fun msgs text role => rfl, fun msgs role => ?_⟩
  unfold onTranscriptStep
  cases h : msgs.getLast? with
  | none => simp [jsTrim]
  | some lastMsg =>
    have hne : msgs ≠ [] := by
      intro e
      rw [e] at h
      exact Option.noConfusion h
    by_cases hr : lastMsg.role = role
    · have hlen : 0 < msgs.length := List.length_pos.mpr hne
      simp [hr, List.length_dropLast]
      omega
    · simp [hr, jsTrim]

/-- C5 (amended to the Gemini engine): when a user speech transcript arrives,
every pending buffer is removed and the cursor is reset to the current clock
time before any further buffer is scheduled: the resulting playback state is
exactly the flushed state, extended by the message's own audio chunk (if any)
scheduled at the current clock time. -/
theorem gemini_barge_in_flush (now : ℚ) (msg : LiveServerMsg) (s : PlaybackState) (t : String)
    (ht : msg.inputTranscription = some t) (hne : t ≠ "")
    (hids : ∀ b ∈ s.scheduled, b.bufId < s.nextBufId) :
    (∀ b ∈ s.scheduled, b ∉ (geminiHandleMessage now msg s).play.scheduled) ∧
    (geminiHandleMessage now msg s).play =
      (match msg.audioData with
       | none => { nextStartTime := now, scheduled := [], nextBufId := s.nextBufId }
       | some n => { nextStartTime := now + chunkDuration n,
                     scheduled := [⟨s.nextBufId, now, chunkDuration n⟩],
                     nextBufId := s.nextBufId + 1 }) := by
  have hcore : (geminiHandleMessage now msg s).play =
      (match msg.audioData with
       | none => { nextStartTime := now, scheduled := [], nextBufId := s.nextBufId }
       | some n => ({ nextStartTime := now + chunkDuration n,
                      scheduled := [⟨s.nextBufId, now, chunkDuration n⟩],
                      nextBufId := s.nextBufId + 1 } : PlaybackState)) := by
    cases hint : msg.interrupted <;> cases had : msg.audioData <;>
      simp [geminiHandleMessage, ht, hne, had, hint, flushAudioQueue,
        geminiPlayAudioChunk, max_self]
  refine ⟨?_, hcore⟩
  intro b hb hbin
  rw [hcore] at hbin
  cases had : msg.audioData with
  | none =>
    rw [had] at hbin
    exact absurd hbin (List.not_mem_nil b)
  | some n =>
    rw [had] at hbin
    have hlt := hids b hb
    rcases List.mem_singleton.mp hbin with rfl
    exact Nat.lt_irrefl _ hlt

/-- Closed witness for `gemini_barge_in_flush`: with one pending buffer and
the cursor at 5, a user transcript at clock time 7 flushes the buffer and
schedules the accompanying chunk at 7. -/
theorem gemini_barge_in_flush_witness :
    (∀ b ∈ bargeState.scheduled, b ∉ (geminiHandleMessage 7 bargeMsg bargeState).play.scheduled) ∧
    (geminiHandleMessage 7 bargeMsg bargeState).play =
      { nextStartTime := 7 + chunkDuration 240, scheduled := [⟨1, 7, chunkDuration 240⟩],
        nextBufId := 2 } :=
  gemini_barge_in_flush 7 bargeMsg bargeState "hello" rfl (by decide) (by decide)

/-- C5's counterexample: in the Grok engine a user transcript arrives (clock
time 4) while a buffer is pending and the cursor is at 5 — nothing is
removed from the pending set and the cursor is not reset, contradicting the
claim for the Grok half of its cited code. -/
theorem grok_no_flush_counterexample :
    (grokHandleMessage 4 (GrokEvent.userTranscriptionCompleted "hi") bargeState).transcripts =
      [⟨"hi", Role.user, true⟩] ∧
    (grokHandleMessage 4 (GrokEvent.userTranscriptionCompleted "hi") bargeState).play =
      bargeState ∧
    bargeState.scheduled ≠ [] ∧
    bargeState.nextStartTime ≠ (4 : ℚ) := by
  refine ⟨rfl, rfl, by decide, by norm_num [bargeState]⟩

/-- C8 (amended): the assembler appends a same-role non-final delta verbatim,
without trimming; but the Gemini sanitization pass trims each delta (after
stripping control tokens), so edge whitespace of the delivered delta does not
survive to the assembler. -/
theorem assembler_appends_verbatim :
    (∀ (init : List ChatTurn) (lastMsg : ChatTurn) (text : String) (role : Role),
        lastMsg.role = role →
        onTranscriptStep (init ++ [lastMsg]) text role false =
          init ++ [{ lastMsg with text := lastMsg.text ++ text }]) ∧
    sanitizeTranscript "<ctrl46> there " = "there" := by
  refine ⟨?_, by decide⟩
  intro init lastMsg text role hrole
  simp [onTranscriptStep, List.getLast?_concat, List.dropLast_concat, hrole]

/-- Closed witness for `assembler_appends_verbatim`: a same-role delta with a
leading space is appended with the space intact. -/
theorem assembler_appends_verbatim_witness :
    onTranscriptStep [{ role := Role.model, text := "Hello" }] " there" Role.model false =
      [{ role := Role.model, text := "Hello there" }] :=
  assembler_appends_verbatim.1 [] { role := Role.model, text := "Hello" } " there" Role.model rfl

/-- C8's counterexample: the delivered delta `" there"` loses its leading
space in `sanitizeTranscript` (which trims), so the assembled turn reads
`"Hellothere"`, not `"Hello there"` — the delivered delta's edge whitespace
is not preserved. -/
theorem sanitize_trims_counterexample :
    sanitizeTranscript " there" = "there" ∧
    onTranscriptStep [{ role := Role.model, text := "Hello" }] (sanitizeTranscript " there")
      Role.model false = [{ role := Role.model, text := "Hellothere" }] ∧
    "Hellothere" ≠ "Hello there" :=
  ⟨by decide, by decide, by decide⟩

/-- C9: every inbound tool call, whatever its name, is forwarded to the
registered handler and answered by exactly one generic-success tool result
correlated to the call's id. -/
theorem tool_call_always_acknowledged (now : ℚ) (msg : LiveServerMsg) (s : PlaybackState) :
    (geminiHandleMessage now msg s).toolResults =
      msg.functionCalls.map (fun c => { id := c.id, name := c.name, result := "ok" }) ∧
    (geminiHandleMessage now msg s).handlerCalls =
      msg.functionCalls.map (fun c => (c.name.getD "", c.args.getD [], c.id.getD "")) ∧
    (geminiHandleMessage now msg s).toolResults.length = msg.functionCalls.length := by
  refine ⟨rfl, rfl, ?_⟩
  simp [geminiHandleMessage]

/-- C10: `updateField` touches at most the matching field's value and status;
step, active field, receipt code, photo, group ids/labels and the ids and
order of all fields are untouched, and a non-matching field id leaves the
whole form unchanged. -/
theorem update_field_frame (form : IntakeFormState) (fid v : String) (src : UpdateSource) :
    (updateField form fid v src).step = form.step ∧
    (updateField form fid v src).activeFieldId = form.activeFieldId ∧
    (updateField form fid v src).receiptCode = form.receiptCode ∧
    (updateField form fid v src).userPhoto = form.userPhoto ∧
    List.Forall₂ (fun g g' => g.id = g'.id ∧ g.label = g'.label ∧
        List.Forall₂ (fun f f' => f'.id = f.id ∧ (f.id ≠ fid → f' = f)) g.fields g'.fields)
      form.groups (updateField form fid v src).groups ∧
    ((∀ g ∈ form.groups, ∀ f ∈ g.fields, f.id ≠ fid) → updateField form fid v src = form) := by
  refine ⟨rfl, rfl, rfl, rfl, ?_, ?_⟩
  · show List.Forall₂ _ form.groups (form.groups.map _)
    rw [List.forall₂_map_right_iff, List.forall₂_same]
    intro g _
    refine ⟨rfl, rfl, ?_⟩
    show List.Forall₂ _ g.fields (g.fields.map _)
    rw [List.forall₂_map_right_iff, List.forall₂_same]
    intro f _
    by_cases h0 : f.id = fid
    · exact ⟨by simp [h0], fun hne => absurd h0 hne⟩
    · exact ⟨by simp [h0], fun _ => by simp [h0]⟩
  · intro hall
    have hfields : ∀ (fs : List FormField), (∀ f ∈ fs, f.id ≠ fid) →
        (fs.map fun f =>
          if f.id = fid then { f with value := v, status := sourceStatus src } else f) = fs := by
      intro fs
      induction fs with
      | nil => intro _; rfl
      | cons a t ih =>
        intro hfs
        simp only [List.map_cons]
        rw [if_neg (hfs a (List.mem_cons_self a t)),
          ih fun f0 hf0 => hfs f0 (List.mem_cons_of_mem a hf0)]
    have hgroups : ∀ (gs : List FormGroup), (∀ g ∈ gs, ∀ f ∈ g.fields, f.id ≠ fid) →
        (gs.map fun g =>
          { g with fields := g.fields.map fun f =>
              if f.id = fid then { f with value := v, status := sourceStatus src }
              else f }) = gs := by
      intro gs
      induction gs with
      | nil => intro _; rfl
      | cons a t ih =>
        intro hgs
        simp only [List.map_cons]
        rw [hfields a.fields (hgs a (List.mem_cons_self a t)),
          ih fun g0 hg0 => hgs g0 (List.mem_cons_of_mem a hg0)]
    show { form with groups := _ } = form
    rw [hgroups form.groups hall]

/-- Closed witness for `update_field_frame`: a hallucinated field id leaves
the default form untouched. -/
theorem update_field_frame_witness :
    updateField createDefaultForm "bogus_field" "x" UpdateSource.speech = createDefaultForm ∧
    (updateField createDefaultForm "bogus_field" "x" UpdateSource.speech).receiptCode =
      createDefaultForm.receiptCode :=
  ⟨(update_field_frame createDefaultForm "bogus_field" "x" UpdateSource.speech).2.2.2.2.2
      (by decide),
   (update_field_frame createDefaultForm "bogus_field" "x" UpdateSource.speech).2.2.1⟩

/-- A sequence of confirm calls preserves reachability. -/
theorem reachable_confirmAll (fids : List String) :
    ∀ {f : IntakeFormState}, Reachable f → Reachable (confirmAll f fids) := by
  induction fids with
  | nil => intro f h; exact h
  | cons a t ih => intro f h; exact ih (Reachable.confirm a h)

/-- C3's counterexample: on the reachable state `reopenedForm` (incident
step, `full_name` re-opened, incident fields unanswered), confirming
`incident_type` sets `activeFieldId` to `full_name` — a field of the
*previous* group — although the first non-confirmed field of the current
group, scanned in defined order, is `incident_description`: the scan starts
at the first group, not at the current group. -/
theorem confirm_scan_counterexample :
    Reachable reopenedForm ∧
    reopenedForm.step = "incident" ∧
    (((confirmField reopenedForm "incident_type").groups.find? fun g =>
        g.id == "incident").bind fun g =>
        (g.fields.find? fun f => !(f.status == FieldStatus.confirmed)).map fun f => f.id) =
      some "incident_description" ∧
    (confirmField reopenedForm "incident_type").step = "incident" ∧
    (confirmField reopenedForm "incident_type").activeFieldId = some "full_name" ∧
    some "full_name" ≠ some ("incident_description" : String) := by
  refine ⟨?_, by decide, by decide, by decide, by decide, by decide⟩
  exact Reachable.update "full_name" "John" UpdateSource.speech
    (reachable_confirmAll personalFieldIds (Reachable.move "personal" "X" Reachable.init))

/-- C3 (amended): `confirmField` confirms the matching field and points
`activeFieldId` at the first non-confirmed field scanning **all groups from
the first group** in defined order (`findNextField`), not the current group
first; `step` changes only when the current group is fully confirmed after
the call, and then it becomes the found field's group.  In particular, on a
state whose earlier groups are fully confirmed, confirming a field while a
later field of the same group is unanswered leaves the step unchanged and
activates that later field. -/
theorem confirm_field_amended :
    (∀ (form : IntakeFormState) (fid : String),
        (∀ g ∈ (confirmField form fid).groups, ∀ f ∈ g.fields,
            f.id = fid → f.status = FieldStatus.confirmed) ∧
        ((confirmField form fid).activeFieldId =
          match findNextField (confirmField form fid) with
          | some (_, nfid) => some nfid
          | none => form.activeFieldId) ∧
        ((confirmField form fid).step ≠ form.step →
          groupFullyConfirmed (confirmField form fid) form.step = true ∧
          (findNextField (confirmField form fid)).map Prod.fst =
            some (confirmField form fid).step)) ∧
    ((confirmField incidentStageForm "incident_type").step = incidentStageForm.step ∧
     (confirmField incidentStageForm "incident_type").activeFieldId =
       some "incident_description") := by
  refine ⟨?_, by decide, by decide⟩
  intro form fid
  refine ⟨?_, rfl, ?_⟩
  · intro g' hg' f' hf' hid'
    have hg2 : g' ∈ (confirmFieldUpdate form fid).groups := hg'
    simp only [confirmFieldUpdate, List.mem_map] at hg2
    obtain ⟨g, _, rfl⟩ := hg2
    simp only [List.mem_map] at hf'
    obtain ⟨f0, _, rfl⟩ := hf'
    by_cases h0 : f0.id = fid
    · simp [h0]
    · simp only [if_neg h0] at hid'
      exact absurd hid' h0
  · intro hne
    rw [confirmField_groupFullyConfirmed, confirmField_findNextField]
    have hstep : (confirmField form fid).step =
        (match findNextField (confirmFieldUpdate form fid) with
         | some (gid, _) =>
           if gid ≠ form.step ∧
               groupFullyConfirmed (confirmFieldUpdate form fid) form.step = true then gid
           else form.step
         | none => form.step) := rfl
    rw [hstep] at hne ⊢
    cases hnext : findNextField (confirmFieldUpdate form fid) with
    | none =>
      rw [hnext] at hne
      exact absurd rfl hne
    | some p =>
      obtain ⟨gid, nfid⟩ := p
      rw [hnext] at hne
      have hne' : (if gid ≠ form.step ∧
          groupFullyConfirmed (confirmFieldUpdate form fid) form.step = true then gid
          else form.step) ≠ form.step := hne
      by_cases hcond : gid ≠ form.step ∧
          groupFullyConfirmed (confirmFieldUpdate form fid) form.step = true
      · refine ⟨hcond.2, ?_⟩
        show Option.map Prod.fst (some (gid, nfid)) =
          some (if gid ≠ form.step ∧
            groupFullyConfirmed (confirmFieldUpdate form fid) form.step = true then gid
            else form.step)
        rw [if_pos hcond, Option.map_some']
      · rw [if_neg hcond] at hne'
        exact absurd rfl hne'

/-- Closed witness for `confirm_field_amended`: confirming `full_name` on
the freshly opened personal step marks it confirmed, keeps the step, and
activates `date_of_birth`. -/
theorem confirm_field_amended_witness :
    (∀ g ∈ (confirmField (moveToStep createDefaultForm "personal" "X").1 "full_name").groups,
        ∀ f ∈ g.fields, f.id = "full_name" → f.status = FieldStatus.confirmed) ∧
    ((confirmField (moveToStep createDefaultForm "personal" "X").1 "full_name").step ≠
        (moveToStep createDefaultForm "personal" "X").1.step →
      groupFullyConfirmed (confirmField (moveToStep createDefaultForm "personal" "X").1
          "full_name") (moveToStep createDefaultForm "personal" "X").1.step = true ∧
      (findNextField (confirmField (moveToStep createDefaultForm "personal" "X").1
          "full_name")).map Prod.fst =
        some (confirmField (moveToStep createDefaultForm "personal" "X").1 "full_name").step) :=
  ⟨(confirm_field_amended.1 (moveToStep createDefaultForm "personal" "X").1 "full_name").1,
   (confirm_field_amended.1 (moveToStep createDefaultForm "personal" "X").1 "full_name").2.2⟩

/-- `updateField` keeps every group id. -/
theorem updateField_group_ids (form : IntakeFormState) (fid v : String) (src : UpdateSource) :
    (updateField form fid v src).groups.map (fun g => g.id) =
      form.groups.map (fun g => g.id) := by
  show (form.groups.map _).map _ = _
  rw [List.map_map]
  rfl

/-- `confirmField` keeps every group id. -/
theorem confirmField_group_ids (form : IntakeFormState) (fid : String) :
    (confirmField form fid).groups.map (fun g => g.id) =
      form.groups.map (fun g => g.id) := by
  show (form.groups.map _).map _ = _
  rw [List.map_map]
  rfl

/-- `moveToStep` never touches the groups. -/
theorem moveToStep_groups (form : IntakeFormState) (step code : String) :
    (moveToStep form step code).1.groups = form.groups := by
  by_cases h1 : form.step ≠ step ∧ form.step ≠ "photo" ∧ form.step ≠ "receipt" ∧
      groupFullyConfirmed form form.step = false
  · simp only [moveToStep]
    rw [if_pos h1]
  · by_cases h2 : step = "receipt"
    · subst h2
      by_cases h3 : (form.groups.all fun g => g.fields.all fun f =>
          f.status == FieldStatus.confirmed) = true
      · simp only [moveToStep]
        rw [if_neg h1, if_pos trivial, if_pos h3]
      · simp only [moveToStep]
        rw [if_neg h1, if_pos trivial, if_neg h3]
    · simp only [moveToStep]
      rw [if_neg h1, if_neg h2]

/-- Every reachable form keeps the two default groups, in order. -/
theorem reachable_group_ids {f : IntakeFormState} (h : Reachable f) :
    f.groups.map (fun g => g.id) = ["personal", "incident"] := by
  induction h with
  | init => rfl
  | update fid v src _ ih => rw [updateField_group_ids, ih]
  | confirm fid _ ih => rw [confirmField_group_ids, ih]
  | move step code _ ih => rw [moveToStep_groups, ih]

/-- The group id returned by `findNextField` is the id of one of the form's
groups. -/
theorem findNextField_fst_mem {form : IntakeFormState} {gid nfid : String}
    (h : findNextField form = some (gid, nfid)) :
    gid ∈ form.groups.map (fun g => g.id) := by
  unfold findNextField at h
  obtain ⟨g, hg, hfg⟩ := List.exists_of_findSome?_eq_some h
  cases hfind : g.fields.find? fun f => !(f.status == FieldStatus.confirmed) with
  | none => rw [hfind] at hfg; exact Option.noConfusion hfg
  | some f0 =>
    rw [hfind, Option.map_some'] at hfg
    have : g.id = gid := congrArg Prod.fst (Option.some.inj hfg)
    exact this ▸ List.mem_map_of_mem _ hg

/-- If `confirmField` changed the step, the new step is the id of one of the
groups. -/
theorem confirmField_step_mem {form : IntakeFormState} {fid : String}
    (hne : (confirmField form fid).step ≠ form.step) :
    (confirmField form fid).step ∈ (confirmField form fid).groups.map (fun g => g.id) := by
  have hstep : (confirmField form fid).step =
      (match findNextField (confirmFieldUpdate form fid) with
       | some (gid, _) =>
         if gid ≠ form.step ∧
             groupFullyConfirmed (confirmFieldUpdate form fid) form.step = true then gid
         else form.step
       | none => form.step) := rfl
  rw [hstep] at hne ⊢
  cases hnext : findNextField (confirmFieldUpdate form fid) with
  | none =>
    rw [hnext] at hne
    exact absurd rfl hne
  | some p =>
    obtain ⟨gid, nfid⟩ := p
    rw [hnext] at hne
    have hne' : (if gid ≠ form.step ∧
        groupFullyConfirmed (confirmFieldUpdate form fid) form.step = true then gid
        else form.step) ≠ form.step := hne
    have hmem : gid ∈ (confirmField form fid).groups.map (fun g => g.id) := by
      rw [confirmField_groups]
      exact findNextField_fst_mem hnext
    show (if gid ≠ form.step ∧
        groupFullyConfirmed (confirmFieldUpdate form fid) form.step = true then gid
        else form.step) ∈ (confirmField form fid).groups.map fun g => g.id
    by_cases hcond : gid ≠ form.step ∧
        groupFullyConfirmed (confirmFieldUpdate form fid) form.step = true
    · rw [if_pos hcond]
      exact hmem
    · rw [if_neg hcond] at hne'
      exact absurd rfl hne'

/-- When every field is confirmed, every group is fully confirmed. -/
theorem allConfirmed_groupFullyConfirmed {form : IntakeFormState}
    (h : allFieldsConfirmed form = true) (gid : String) :
    groupFullyConfirmed form gid = true := by
  unfold groupFullyConfirmed
  cases hfind : form.groups.find? fun g => g.id == gid with
  | none => rfl
  | some g =>
    show (g.fields.all fun f => f.status == FieldStatus.confirmed) = true
    exact List.all_eq_true.mp h g (List.mem_of_find?_eq_some hfind)

/-- The reachability invariant underlying C2's amendment: on the receipt step
the receipt code is set. -/
theorem reachable_receipt_code {f : IntakeFormState} (h : Reachable f) :
    f.step = "receipt" → f.receiptCode ≠ none := by
  induction h with
  | init => intro hstep; exact absurd hstep (by decide)
  | update fid v src _ ih => exact ih
  | @confirm f fid hf ih =>
    intro hstep
    show f.receiptCode ≠ none
    by_cases heq : (confirmField f fid).step = f.step
    · exact ih (heq.symm.trans hstep)
    · exfalso
      have hmem := confirmField_step_mem heq
      rw [hstep, confirmField_group_ids, reachable_group_ids hf] at hmem
      exact (by decide : ¬ ("receipt" ∈ (["personal", "incident"] : List String))) hmem
  | @move f step code hf ih =>
    intro hstep
    by_cases hguard : f.step ≠ step ∧ f.step ≠ "photo" ∧ f.step ≠ "receipt" ∧
        groupFullyConfirmed f f.step = false
    · have h1 : (moveToStep f step code).1.step = f.step := by
        simp only [moveToStep]
        rw [if_pos hguard]
      have h2 : (moveToStep f step code).1.receiptCode = f.receiptCode := by
        simp only [moveToStep]
        rw [if_pos hguard]
      rw [h2]
      exact ih (h1 ▸ hstep)
    · by_cases hrec : step = "receipt"
      · subst hrec
        by_cases hall : (f.groups.all fun g => g.fields.all fun x =>
            x.status == FieldStatus.confirmed) = true
        · have h2 : (moveToStep f "receipt" code).1.receiptCode = some code := by
            simp only [moveToStep]
            rw [if_neg hguard, if_pos trivial, if_pos hall]
          rw [h2]
          exact fun hc => Option.noConfusion hc
        · have h2 : (moveToStep f "receipt" code).1.receiptCode = f.receiptCode := by
            simp only [moveToStep]
            rw [if_neg hguard, if_pos trivial, if_neg hall]
          have h1 : (moveToStep f "receipt" code).1.step =
              (match f.groups.find? fun g =>
                  !(g.fields.all fun x => x.status == FieldStatus.confirmed) with
               | some g => g.id
               | none => f.step) := by
            simp only [moveToStep]
            rw [if_neg hguard, if_pos trivial, if_neg hall]
          rw [h2]
          rw [h1] at hstep
          cases hfind : f.groups.find? fun g =>
              !(g.fields.all fun x => x.status == FieldStatus.confirmed) with
          | none =>
            rw [hfind] at hstep
            exact ih hstep
          | some g =>
            rw [hfind] at hstep
            have hgid : g.id = "receipt" := hstep
            exfalso
            have hmem : g.id ∈ f.groups.map (fun x => x.id) :=
              List.mem_map_of_mem _ (List.mem_of_find?_eq_some hfind)
            rw [reachable_group_ids hf, hgid] at hmem
            exact (by decide : ¬ ("receipt" ∈ (["personal", "incident"] : List String))) hmem
      · have h1 : (moveToStep f step code).1.step = step := by
          simp only [moveToStep]
          rw [if_neg hguard, if_neg hrec]
        rw [h1] at hstep
        exact absurd hstep hrec

/-- C2's counterexample: `escapedForm` is reachable (confirm everything,
move to receipt, then move back to personal), sits on the personal step, and
still carries the receipt code — so `receiptCode` non-null does **not**
imply the terminal step. -/
theorem receipt_iff_counterexample :
    Reachable escapedForm ∧
    escapedForm.step = "personal" ∧
    escapedForm.step ≠ "receipt" ∧
    escapedForm.receiptCode = some "RTP-1" := by
  refine ⟨?_, by decide, by decide, by decide⟩
  exact Reachable.move "personal" "B" (Reachable.move "receipt" "RTP-1"
    (reachable_confirmAll (personalFieldIds ++ incidentFieldIds)
      (Reachable.move "personal" "X" Reachable.init)))

/-- C2 (amended): on every reachable form the receipt step implies a receipt
code (the converse fails, see the counterexample); a terminal transition with
every field confirmed succeeds, setting the fresh code and clearing the
active field; a terminal transition with any unconfirmed field leaves the
receipt code unchanged and returns a blocked list. -/
theorem receipt_code_invariant_amended :
    (∀ f : IntakeFormState, Reachable f → f.step = "receipt" → f.receiptCode ≠ none) ∧
    (∀ (f : IntakeFormState) (code : String), allFieldsConfirmed f = true →
        moveToStep f "receipt" code =
          ({ f with
              step := "receipt",
              activeFieldId := none,
              receiptCode := some code }, none)) ∧
    (∀ (f : IntakeFormState) (code : String), allFieldsConfirmed f = false →
        (moveToStep f "receipt" code).1.receiptCode = f.receiptCode ∧
        (moveToStep f "receipt" code).2 ≠ none) := by
  refine ⟨fun f h => reachable_receipt_code h, ?_, ?_⟩
  · intro f code h
    have hc : ¬(f.step ≠ "receipt" ∧ f.step ≠ "photo" ∧ f.step ≠ "receipt" ∧
        groupFullyConfirmed f f.step = false) := by
      rintro ⟨-, -, -, hfalse⟩
      rw [allConfirmed_groupFullyConfirmed h f.step] at hfalse
      exact Bool.noConfusion hfalse
    have hall : (f.groups.all fun g => g.fields.all fun x =>
        x.status == FieldStatus.confirmed) = true := h
    simp only [moveToStep]
    rw [if_neg hc, if_pos trivial, if_pos hall]
  · intro f code h
    have hall : ¬((f.groups.all fun g => g.fields.all fun x =>
        x.status == FieldStatus.confirmed) = true) := by
      intro e
      have hX : (f.groups.all fun g => g.fields.all fun x =>
          x.status == FieldStatus.confirmed) = false := h
      rw [hX] at e
      exact Bool.noConfusion e
    by_cases hguard : f.step ≠ "receipt" ∧ f.step ≠ "photo" ∧ f.step ≠ "receipt" ∧
        groupFullyConfirmed f f.step = false
    · constructor
      · simp only [moveToStep]
        rw [if_pos hguard]
      · simp only [moveToStep]
        rw [if_pos hguard]
        exact fun hc2 => Option.noConfusion hc2
    · constructor
      · simp only [moveToStep]
        rw [if_neg hguard, if_pos trivial, if_neg hall]
      · simp only [moveToStep]
        rw [if_neg hguard, if_pos trivial, if_neg hall]
        exact fun hc2 => Option.noConfusion hc2

/-- Closed witness for `receipt_code_invariant_amended`: the fully confirmed
form transitions to receipt with the fresh code; the default form's terminal
request leaves its (null) receipt code unchanged; the reachable receipt-step
form has a code. -/
theorem receipt_code_invariant_witness :
    moveToStep fullyConfirmedForm "receipt" "RTP-1" =
      ({ fullyConfirmedForm with
          step := "receipt",
          activeFieldId := none,
          receiptCode := some "RTP-1" }, none) ∧
    (moveToStep createDefaultForm "receipt" "R").1.receiptCode =
      createDefaultForm.receiptCode ∧
    receiptForm.receiptCode ≠ none :=
  ⟨receipt_code_invariant_amended.2.1 fullyConfirmedForm "RTP-1" (by decide),
   (receipt_code_invariant_amended.2.2 createDefaultForm "R" (by decide)).1,
   receipt_code_invariant_amended.1 receiptForm
     (Reachable.move "receipt" "RTP-1" (reachable_confirmAll
       (personalFieldIds ++ incidentFieldIds)
       (Reachable.move "personal" "X" Reachable.init))) (by decide)⟩

end Raksa
